import Mathlib

/-!
Verification development for the roller-timeline-viewer web client.

The TypeScript sources are shallowly embedded: pure data transformations
(`compressTimeline`, `createGroups`, `eventsToTimelineItems`, the
`filteredEvents` memo, the initial-window computation) become Lean
functions over explicit records, and the two stateful pieces (the OAuth
token cache in `src/api/countroll.ts` and the `loadData` effect in
`src/pages/AssetPage.tsx`) become explicit state machines whose steps
are the atomic synchronous segments between `await` suspension points of
the single-threaded JavaScript event loop.

Dates: the client only ever uses `Date.getTime()` (milliseconds) and
`Date.getFullYear()`; a `JSDate` record carries exactly those two
observations of a parsed `creationDateTime` string.  Constructions
`new Date(y, 0, 1)` / `new Date(y, 11, 31)` are represented as
year/month/day triples (`YMD`, month 0-based as in JavaScript).
-/

/-- The two observations of a JavaScript `Date` the client uses:
`getTime()` (ms since epoch) and `getFullYear()`. -/

structure JSDate where
  time : Int
  year : Int
deriving DecidableEq, Repr

/-- A calendar date as constructed by `new Date(year, month, day)`;
month is 0-based as in JavaScript. -/

structure YMD where
  year : Int
  month : Int
  day : Int
deriving DecidableEq, Repr

/-- The fields of an `AssetEvent` (src/types.ts) that the functions
verified here consume.  `type` and `state` are runtime strings: the
TypeScript union types are not enforced on API data.  `creationDate`
is `new Date(e.creationDateTime)`. -/

structure AssetEvent where
  id : String
  type : String
  state : String
  creationDate : JSDate
  coverMaterial : Option String
deriving DecidableEq, Repr

/-- Stable insertion sort with a boolean `le`; the embedding of
`Array.prototype.sort` (spec-mandated stable, sorted output). -/

def sortInsert {α : Type} (le : α → α → Bool) (x : α) : List α → List α
  | [] => [x]
  | y :: ys => if le x y then x :: y :: ys else y :: sortInsert le x ys

/-- See `sortInsert`. -/

def insertionSort {α : Type} (le : α → α → Bool) : List α → List α
  | [] => []
  | x :: xs => sortInsert le x (insertionSort le xs)

/-- First-occurrence deduplication: the iteration order of a JavaScript
`Set` built by successive `add` calls. -/

def distinctFirst {α : Type} [DecidableEq α] : List α → List α
  | [] => []
  | x :: xs => x :: (distinctFirst xs).filter (fun y => y ≠ x)

/-- `Math.min(...xs)` over a nonempty list (callers guard emptiness). -/

def minList : List Int → Int
  | [] => 0
  | x :: xs => xs.foldl min x

/-- `Math.max(...xs)` over a nonempty list (callers guard emptiness). -/

def maxList : List Int → Int
  | [] => 0
  | x :: xs => xs.foldl max x

/-!
## Token cache (src/api/countroll.ts)

Module state: `cachedToken`, `tokenExpiry`, `tokenPromise`.  A call to
`getAccessToken` runs synchronously up to its first suspension: it
either returns the valid cached token, joins the promise already in
flight, or stores a fresh `fetchNewToken()` promise (whose body runs
synchronously up to `await fetch(...)`, issuing the POST) and awaits it
behind `try/finally`.  When the fetch settles the leader's continuation
runs: on success `fetchNewToken` caches the token and computes
`tokenExpiry = now + expires_in * 1000`; in both outcomes the leader's
`finally` clears `tokenPromise`, and every caller awaiting that promise
resolves with the same outcome.  Steps of the model are these atomic
event-loop segments.
-/

/-- How the identity-endpoint fetch settles: `expiresIn` is the
`expires_in` field (seconds) of a 2xx JSON body; `failure` covers a
non-2xx response or a transport error. -/

inductive FetchOutcome where
  | success (token : String) (expiresIn : Int)
  | failure
deriving DecidableEq, Repr

/-- What a given `getAccessToken` caller has observed so far. -/

inductive CallResult where
  | pending
  | gotToken (t : String)
  | gotError
deriving DecidableEq, Repr

/-- The module-level mutable state of countroll.ts plus the bookkeeping
needed to state the claims: `postCount` counts POSTs issued to the
identity endpoint, `waiting` lists the callers (by id) awaiting the
in-flight request (the leader included), `result` records each caller's
outcome. -/

structure TokenCacheState where
  cachedToken : Option String
  tokenExpiry : Int
  inFlight : Bool
  postCount : Nat
  waiting : List Nat
  result : Nat → CallResult

/-- `cachedToken && Date.now() < tokenExpiry - 10000`. -/

def tokenValid (s : TokenCacheState) (now : Int) : Bool :=
  s.cachedToken.isSome && decide (now < s.tokenExpiry - 10000)

/-- The synchronous prefix of `getAccessToken()` run by caller `i` at
time `now` (the segment up to the first suspension point): return the
valid cached token, or join the in-flight promise, or become the leader
— store a new `fetchNewToken()` promise, whose synchronous prefix
issues the POST. -/

def stepCall (s : TokenCacheState) (i : Nat) (now : Int) : TokenCacheState :=
  match s.cachedToken with
  | some t =>
    if now < s.tokenExpiry - 10000 then
      { s with result := fun j => if j = i then .gotToken t else s.result j }
    else if s.inFlight then
      { s with waiting := i :: s.waiting }
    else
      { s with inFlight := true, postCount := s.postCount + 1, waiting := [i] }
  | none =>
    if s.inFlight then
      { s with waiting := i :: s.waiting }
    else
      { s with inFlight := true, postCount := s.postCount + 1, waiting := [i] }

/-- The event-loop segment run when the in-flight fetch settles at time
`now`: on success `fetchNewToken` caches the token and sets
`tokenExpiry = now + expiresIn * 1000`; in both outcomes the leader's
`finally` clears `tokenPromise` and every waiting caller resolves with
the request's outcome.  A completion with nothing in flight does not
occur; it is a no-op. -/

def stepComplete (s : TokenCacheState) (o : FetchOutcome) (now : Int) :
    TokenCacheState :=
  if s.inFlight then
    match o with
    | .success t e =>
      { cachedToken := some t
        tokenExpiry := now + e * 1000
        inFlight := false
        postCount := s.postCount
        waiting := []
        result := fun j => if j ∈ s.waiting then .gotToken t else s.result j }
    | .failure =>
      { s with
        inFlight := false
        waiting := []
        result := fun j => if j ∈ s.waiting then .gotError else s.result j }
  else s

/-- A convenient fully concrete starting state for witnesses: empty
cache, nothing in flight, nobody waiting. -/

def initialTokenCacheState : TokenCacheState :=
  { cachedToken := none, tokenExpiry := 0, inFlight := false
    postCount := 0, waiting := [], result := fun _ => .pending }

/-- A call made while no valid token is cached and a refresh is in
flight joins the in-flight request without issuing anything. -/

def DAY_MS : Int := 1000 * 60 * 60 * 24

/-- `DAY_MS * 14`: the fixed synthetic spacing of compressed events. -/

def STANDARD_GAP_MS : Int := DAY_MS * 14

/-- `new Date(2020, 0, 1)` — the fixed reference point of the
compressed layout.  The numeric value is the UTC timestamp; the actual
value is timezone-dependent but no claim depends on it. -/

def compressBaseTime : Int := 1577836800000

/-- One entry of `compressedEvents`: the event, its real timestamp, its
synthetic timestamp, and its position index. -/

structure CompressedEvent where
  event : AssetEvent
  originalTime : Int
  displayTime : Int
  displayIndex : Nat
deriving DecidableEq, Repr

/-- One synthesized gap marker (`GapMarker` in the source). -/

structure GapMarker where
  id : String
  displayTime : Int
  originalDays : Int
  beforeIndex : Nat
deriving DecidableEq, Repr

/-- `Math.round(a / b)` for nonnegative `a` and positive `b`, computed
exactly on the rationals (`floor (a/b + 1/2)`); the double-precision
division in the source agrees except on astronomically fine ties. -/

def jsRoundDivNat (a b : Nat) : Nat := (2 * a + b) / (2 * b)

/-- The visible events sorted ascending by real timestamp — the
`filter`/`sort` prefix of `compressTimeline` (JavaScript `sort` is
stable and sorts by the comparator `a.originalDate - b.originalDate`). -/

def sortedVisible (events : List AssetEvent) : List AssetEvent :=
  insertionSort (fun a b => decide (a.creationDate.time ≤ b.creationDate.time))
    (events.filter (fun e => e.state == "VISIBLE"))

/-- The `for` loop of `compressTimeline`: `prevTime` is the previous
event's real timestamp and `pos` the previous event's position index
(`currentPosition`). -/

def compressLoop (thresholdDays : Int) (prevTime : Int) (pos : Nat) :
    List AssetEvent → List CompressedEvent × List GapMarker
  | [] => ([], [])
  | curr :: rest =>
    let gapMs := curr.creationDate.time - prevTime
    let pos' := pos + 1
    let tail := compressLoop thresholdDays curr.creationDate.time pos' rest
    let ce : CompressedEvent :=
      { event := curr
        originalTime := curr.creationDate.time
        displayTime := compressBaseTime + (pos' : Int) * STANDARD_GAP_MS
        displayIndex := pos' }
    if gapMs > thresholdDays * DAY_MS then
      (ce :: tail.1,
        { id := "gap-" ++ toString pos'
          displayTime := compressBaseTime + (pos' : Int) * STANDARD_GAP_MS - STANDARD_GAP_MS / 2
          originalDays := (jsRoundDivNat gapMs.toNat DAY_MS.toNat : Int)
          beforeIndex := pos' } :: tail.2)
    else
      (ce :: tail.1, tail.2)

/-- `compressTimeline` (compressed Timeline variant): the first visible
event sits at the base position, the loop handles the rest. -/

def compressTimeline (events : List AssetEvent) (thresholdDays : Int) :
    List CompressedEvent × List GapMarker :=
  match sortedVisible events with
  | [] => ([], [])
  | first :: rest =>
    let tail := compressLoop thresholdDays first.creationDate.time 0 rest
    ({ event := first
       originalTime := first.creationDate.time
       displayTime := compressBaseTime
       displayIndex := 0 } :: tail.1,
     tail.2)

/-- The gap marker the claim predicts for the pair at positions
`(i - 1, i)` of the sorted visible list, with real gap `gapMs`. -/

def specGapMarker (i : Nat) (gapMs : Int) : GapMarker :=
  { id := "gap-" ++ toString i
    displayTime := compressBaseTime + (i : Int) * STANDARD_GAP_MS - STANDARD_GAP_MS / 2
    originalDays := (jsRoundDivNat gapMs.toNat DAY_MS.toNat : Int)
    beforeIndex := i }

/-- A four-event asset whose consecutive real-time deltas are
[1 day, 120 days, 5 days]. -/

def gapExampleEvents : List AssetEvent :=
  [ { id := "e0", type := "REGRINDED", state := "VISIBLE",
      creationDate := { time := 0, year := 1970 }, coverMaterial := none },
    { id := "e1", type := "REGRINDED", state := "VISIBLE",
      creationDate := { time := 86400000, year := 1970 }, coverMaterial := none },
    { id := "e2", type := "REGRINDED", state := "VISIBLE",
      creationDate := { time := 10454400000, year := 1970 }, coverMaterial := none },
    { id := "e3", type := "REGRINDED", state := "VISIBLE",
      creationDate := { time := 10886400000, year := 1970 }, coverMaterial := none } ]

/-- Characterization of the loop: the events come back in order, the
event at loop offset `k` sits at synthetic position `pos + 1 + k`, and
the markers are exactly one per consecutive pair (previous time
included) whose gap exceeds the threshold. -/

def jan1 (y : Int) : YMD := { year := y, month := 0, day := 1 }

/-- `new Date(y, 11, 31)`. -/

def dec31 (y : Int) : YMD := { year := y, month := 11, day := 31 }

/-- Boolean `≤` on `Int`, the comparator `(a, b) => a - b` of
`Array.from(selectedYears).sort((a, b) => a - b)`. -/

def intLe : Int → Int → Bool := fun a b => decide (a ≤ b)

/-- The initial-window computation of the current (uncompressed)
Timeline component: selected years, else visible-event year range, else
the current year. -/

def initialWindow (selectedYears : List Int) (visibleEvents : List AssetEvent)
    (now : JSDate) : YMD × YMD :=
  if selectedYears.length > 0 then
    let yearsArray := insertionSort intLe selectedYears
    (jan1 (yearsArray.headD 0), dec31 (yearsArray.getLastD 0))
  else if visibleEvents.length > 0 then
    let eventYears := visibleEvents.map (fun e => e.creationDate.year)
    (jan1 (minList eventYears), dec31 (maxList eventYears))
  else
    (jan1 now.year, dec31 now.year)

/-- The initial-window computation of the compressed Timeline variant:
identical except that the selected-years branch is guarded by
`!compressed`. -/

def initialWindowCompressed (compressed : Bool) (selectedYears : List Int)
    (visibleEvents : List AssetEvent) (now : JSDate) : YMD × YMD :=
  if selectedYears.length > 0 && !compressed then
    let yearsArray := insertionSort intLe selectedYears
    (jan1 (yearsArray.headD 0), dec31 (yearsArray.getLastD 0))
  else if visibleEvents.length > 0 then
    let eventYears := visibleEvents.map (fun e => e.creationDate.year)
    (jan1 (minList eventYears), dec31 (maxList eventYears))
  else
    (jan1 now.year, dec31 now.year)

/-- Elements of `sortInsert` are the inserted element plus the old ones. -/

structure EventTypeConfig where
  label : String
  icon : String
  color : String
  bgColor : String
deriving DecidableEq, Repr

/-- `EVENT_TYPE_CONFIG` of the current Timeline component (the `group`
field of LINKED/UNLINKED is realized by `TIMELINE_GROUPS`). -/

def EVENT_TYPE_CONFIG : List (String × EventTypeConfig) :=
  [ ("RECOVERED", { label := "Recovered", icon := "▲", color := "#16a34a", bgColor := "#dcfce7" }),
    ("REGRINDED", { label := "Regrinded", icon := "▼", color := "#dc2626", bgColor := "#fee2e2" }),
    ("PICTURE", { label := "Picture", icon := "📷", color := "#9333ea", bgColor := "#f3e8ff" }),
    ("ENGRAVED", { label := "Engraved", icon := "✒", color := "#ea580c", bgColor := "#ffedd5" }),
    ("INITIALIZED", { label := "Initialized", icon := "•", color := "#6b7280", bgColor := "#f3f4f6" }),
    ("UNINITIALIZED", { label := "Uninitialized", icon := "•", color := "#6b7280", bgColor := "#f3f4f6" }),
    ("LINKED", { label := "Linked", icon := "🔗", color := "#0891b2", bgColor := "#cffafe" }),
    ("UNLINKED", { label := "Unlinked", icon := "🔗", color := "#64748b", bgColor := "#e2e8f0" }),
    ("ROLLER_LINKED_TO_WO", { label := "Linked to WO", icon := "•", color := "#6b7280", bgColor := "#f3f4f6" }),
    ("OTHER", { label := "Other", icon := "★", color := "#0f766e", bgColor := "#ccfbf1" }) ]

/-- `EVENT_TYPE_CONFIG[t]` as an option. -/

def eventTypeConfigLookup (t : String) : Option EventTypeConfig :=
  (EVENT_TYPE_CONFIG.find? (fun p => p.1 == t)).map (fun p => p.2)

/-- Truthiness of `EVENT_TYPE_CONFIG[t]`. -/

def hasEventTypeConfig (t : String) : Bool :=
  (eventTypeConfigLookup t).isSome

/-- `MAIN_EVENT_TYPES` of the current Timeline component. -/

def MAIN_EVENT_TYPES : List String :=
  ["RECOVERED", "REGRINDED", "PICTURE", "OTHER", "LINKED", "UNLINKED", "ENGRAVED"]

/-- `TIMELINE_GROUPS` of the current Timeline component, as
(id, member types); RECOVERED is handled dynamically.  The POSITION
group's presentation override (label "Linked", link icon) is not
modelled. -/

def TIMELINE_GROUPS : List (String × List String) :=
  [ ("REGRINDED", ["REGRINDED"]),
    ("PICTURE", ["PICTURE"]),
    ("ENGRAVED", ["ENGRAVED"]),
    ("POSITION", ["LINKED", "UNLINKED"]),
    ("OTHER", ["OTHER"]) ]

/-- JavaScript `material || 'Unknown'`: `undefined` and the empty
string are both falsy. -/

def orUnknown : Option String → String
  | none => "Unknown"
  | some s => if s == "" then "Unknown" else s

/-- `getRecoveredGroupId(material)`. -/

def getRecoveredGroupId (material : Option String) : String :=
  "RECOVERED:" ++ orUnknown material

/-- Code-unit lexicographic comparison of character lists — the order
used by JavaScript's default `Array.prototype.sort()` on strings (all
strings involved are BMP, where code units and code points agree). -/

def charListLe : List Char → List Char → Bool
  | [], _ => true
  | _ :: _, [] => false
  | a :: as, b :: bs =>
    if a.toNat < b.toNat then true
    else if b.toNat < a.toNat then false
    else charListLe as bs

/-- See `charListLe`. -/

def strLe (a b : String) : Bool := charListLe a.data b.data

/-- `getRecoveredMaterials`: distinct `coverMaterial || 'Unknown'`
values of visible RECOVERED events (a `Set` preserves first-insertion
order), sorted with the default string sort. -/

def getRecoveredMaterials (events : List AssetEvent) : List String :=
  insertionSort strLe
    (distinctFirst
      ((events.filter (fun e => e.type == "RECOVERED" && e.state == "VISIBLE")).map
        (fun e => orUnknown e.coverMaterial)))

/-- `getGroupForEvent`: RECOVERED events go to their material row;
otherwise the first `TIMELINE_GROUPS` entry containing the type, else
the type itself. -/

def getGroupForEvent (e : AssetEvent) : String :=
  if e.type == "RECOVERED" then getRecoveredGroupId e.coverMaterial
  else
    match TIMELINE_GROUPS.find? (fun g => g.2.contains e.type) with
    | some g => g.1
    | none => e.type

/-- `createGroups(eventTypes, events)`, reduced to the emitted row ids
in emission order (dynamic RECOVERED-material rows first, then the
static groups whose types occur; the source's `order` field is the
position in this list). -/

def createGroups (eventTypes : List String) (events : List AssetEvent) :
    List String :=
  (if eventTypes.contains "RECOVERED" then
    (getRecoveredMaterials events).map (fun m => getRecoveredGroupId (some m))
  else []) ++
  ((TIMELINE_GROUPS.filter (fun g => g.2.any (fun t => eventTypes.contains t))).map
    (fun g => g.1))

/-- The row set the Timeline effect computes: `visibleEvents` filters
on state, `eventTypes` is the set of visible types (a JavaScript `Set`;
only membership is consumed, so the type list stands in for it), and
`createGroups` receives both. -/

def timelineRows (events : List AssetEvent) : List String :=
  createGroups
    ((events.filter (fun e => e.state == "VISIBLE")).map (fun e => e.type))
    (events.filter (fun e => e.state == "VISIBLE"))

/-- A rendered timeline item, reduced to identifier, row assignment and
timestamp (`content`/`className` are presentation only). -/

structure TimelineItem where
  id : String
  group : String
  start : Int
deriving DecidableEq, Repr

/-- `eventsToTimelineItems`: events that are VISIBLE and whose type is
a key of `EVENT_TYPE_CONFIG` become items in their classified row. -/

def eventsToTimelineItems (events : List AssetEvent) : List TimelineItem :=
  (events.filter (fun e => e.state == "VISIBLE" && hasEventTypeConfig e.type)).map
    (fun e => { id := e.id, group := getGroupForEvent e, start := e.creationDate.time })

/-!
## AssetPage filter state and counts (src/pages/AssetPage.tsx)
-/

/-- `DEFAULT_EVENT_TYPES` (all main types except ENGRAVED). -/

def DEFAULT_EVENT_TYPES : List String :=
  ["RECOVERED", "REGRINDED", "PICTURE", "OTHER", "LINKED", "UNLINKED"]

/-- The `filteredEvents` memo: visible, main-type-selected (non-main
types always pass), and year-selected (an empty year set means all
years).  The selected-type and selected-year `Set`s are passed as
lists; only membership is consumed. -/

def filteredEvents (events : List AssetEvent) (selectedTypes : List String)
    (selectedYears : List Int) : List AssetEvent :=
  events.filter (fun e =>
    if e.state != "VISIBLE" then false
    else if MAIN_EVENT_TYPES.contains e.type && !(selectedTypes.contains e.type) then false
    else if selectedYears.length > 0 && !(selectedYears.contains e.creationDate.year) then false
    else true)

/-- The `allVisibleEvents` memo ("for stats"). -/

def allVisibleEvents (events : List AssetEvent) : List AssetEvent :=
  events.filter (fun e => e.state == "VISIBLE")

/-- The event count the page displays (`{allVisibleEvents.length}
events`, and the right-hand side of `Showing X of Y events`). -/

def displayedEventCount (events : List AssetEvent) : Nat :=
  (allVisibleEvents events).length

/-- A concrete event of a type unknown to the style configuration. -/

def unknownTypeEvent : AssetEvent :=
  { id := "x1", type := "SOME_FUTURE_TYPE", state := "VISIBLE",
    creationDate := { time := 0, year := 2024 }, coverMaterial := none }

/-!
## Asset loading with cancellation (src/pages/AssetPage.tsx, loadData)

The effect for asset id `k` creates a closure flag `cancelled`, runs
`loadData`, and returns a cleanup that sets the flag.  `loadData` sets
loading/error synchronously, suspends at
`Promise.all([fetchAsset, fetchPictures])`, and on resume checks
`cancelled` once; if the asset has visible OTHER events it suspends
again at the documents/thumbnails `Promise.all` — and after that resume
commits `setAsset`/`setPictures` without rechecking the flag (only the
`finally` rechecks before `setLoading(false)`).  Steps are the atomic
segments between suspensions; invocations are numbered and the numbers
double as the identity of the data they would commit.
-/

/-- Where an invocation of `loadData` is suspended. -/

inductive LoadPC where
  | idle
  | awaitingFetch
  | awaitingDocs
  | done
deriving DecidableEq, Repr

/-- The page state touched by `loadData`: committed asset and pictures
(tagged by the invocation that committed them), the loading flag, and
the error (tagged likewise). -/

structure PageState where
  asset : Option Nat
  pictures : Option Nat
  loading : Bool
  error : Option Nat
deriving DecidableEq, Repr

/-- Page state plus each invocation's `cancelled` closure flag and
program counter. -/

structure AppState where
  page : PageState
  cancelled : Nat → Bool
  pc : Nat → LoadPC

/-- The schedulable atomic segments: an invocation starts; its
`Promise.all` fetch resolves (carrying whether the asset has visible
OTHER events) or rejects; its documents fetch resolves; its effect
cleanup runs. -/

inductive LoadAction where
  | start (inv : Nat)
  | fetchResolved (inv : Nat) (hasOtherEvents : Bool)
  | fetchFailed (inv : Nat)
  | docsResolved (inv : Nat)
  | cleanup (inv : Nat)
deriving DecidableEq, Repr

/-- One atomic event-loop segment of `loadData`.  In `docsResolved` the
commit of `setAsset`/`setPictures` is unconditional — the source does
not recheck `cancelled` after the inner `await` — while the `finally`
rechecks it before `setLoading(false)`. -/

def stepLoad (s : AppState) (a : LoadAction) : AppState :=
  match a with
  | .start inv =>
    { s with
      page := { s.page with loading := true, error := none }
      pc := fun k => if k = inv then .awaitingFetch else s.pc k }
  | .fetchResolved inv hasOther =>
    if s.pc inv = .awaitingFetch then
      if s.cancelled inv then
        { s with pc := fun k => if k = inv then .done else s.pc k }
      else if hasOther then
        { s with pc := fun k => if k = inv then .awaitingDocs else s.pc k }
      else
        { s with
          page := { s.page with asset := some inv, pictures := some inv, loading := false }
          pc := fun k => if k = inv then .done else s.pc k }
    else s
  | .fetchFailed inv =>
    if s.pc inv = .awaitingFetch then
      if s.cancelled inv then
        { s with pc := fun k => if k = inv then .done else s.pc k }
      else
        { s with
          page := { s.page with error := some inv, loading := false }
          pc := fun k => if k = inv then .done else s.pc k }
    else s
  | .docsResolved inv =>
    if s.pc inv = .awaitingDocs then
      { s with
        page :=
          if s.cancelled inv then
            { s.page with asset := some inv, pictures := some inv }
          else
            { s.page with asset := some inv, pictures := some inv, loading := false }
        pc := fun k => if k = inv then .done else s.pc k }
    else s
  | .cleanup inv =>
    { s with cancelled := fun k => if k = inv then true else s.cancelled k }

/-- Run a schedule of segments. -/

def runLoad (s : AppState) : List LoadAction → AppState
  | [] => s
  | a :: rest => runLoad (stepLoad s a) rest

/-- Fresh page, no invocation started. -/

def initialAppState : AppState :=
  { page := { asset := none, pictures := none, loading := false, error := none }
    cancelled := fun _ => false
    pc := fun _ => .idle }

/-- The interleaving that exhibits the stale overwrite: invocation 1
resolves its fetch for an asset with visible OTHER events and suspends
at the documents fetch; the user navigates (cleanup 1); invocation 2
starts and fully commits; then invocation 1's documents fetch resolves
and its stale data is committed over invocation 2's. -/

def staleTrace : List LoadAction :=
  [.start 1, .fetchResolved 1 true, .cleanup 1, .start 2,
   .fetchResolved 2 false, .docsResolved 1]

/-- C3 (amended): with years selected the initial window runs from
Jan 1 of the earliest selected year to Dec 31 of the latest — with no
"today + padding" extension for the current year; with no selection it
runs from Jan 1 of the earliest visible event's year to Dec 31 of the
latest; with no visible events it is the current calendar year. -/

def recoveredExampleEvents : List AssetEvent :=
  [ { id := "r1", type := "RECOVERED", state := "VISIBLE",
      creationDate := { time := 1000, year := 2021 }, coverMaterial := some "Rubber" },
    { id := "r2", type := "RECOVERED", state := "VISIBLE",
      creationDate := { time := 2000, year := 2022 }, coverMaterial := some "PU" },
    { id := "r3", type := "RECOVERED", state := "VISIBLE",
      creationDate := { time := 3000, year := 2023 }, coverMaterial := some "Rubber" } ]

/-- C6: the row set is computed from the visible events — one dynamic
RECOVERED row per distinct material of visible RECOVERED events
("Unknown" substituted when absent), sorted by the string order and
duplicate-free, and every emitted row has at least one visible event;
materials [Rubber, PU, Rubber] with no other types yield exactly
the rows RECOVERED:PU, RECOVERED:Rubber in that order. -/

theorem stepCall_join (s : TokenCacheState) (i : Nat) (now : Int)
    (hif : s.inFlight = true) (hv : tokenValid s now = false) :
    stepCall s i now = { s with waiting := i :: s.waiting } := by
  unfold stepCall
  cases hct : s.cachedToken with
  | none => simp [hif]
  | some tk =>
    have hlt : ¬ now < s.tokenExpiry - 10000 := by
      simp [tokenValid, hct] at hv; omega
    simp [hif, hlt]

/-- A call made while no valid token is cached and nothing is in flight
becomes the leader: it stores a fresh in-flight request and issues
exactly one POST. -/

theorem stepCall_refresh (s : TokenCacheState) (i : Nat) (now : Int)
    (hnf : s.inFlight = false) (hv : tokenValid s now = false) :
    stepCall s i now =
      { s with inFlight := true, postCount := s.postCount + 1, waiting := [i] } := by
  unfold stepCall
  cases hct : s.cachedToken with
  | none => simp [hnf]
  | some tk =>
    have hlt : ¬ now < s.tokenExpiry - 10000 := by
      simp [tokenValid, hct] at hv; omega
    simp [hnf, hlt]

/-- C7: a call while a cached token exists and `now < expiry - 10s`
returns that token and touches nothing: no POST, no new in-flight
request, cache unchanged. -/

theorem getAccessToken_cached_no_request
    (s : TokenCacheState) (i : Nat) (now : Int) (t : String)
    (hc : s.cachedToken = some t) (hv : now < s.tokenExpiry - 10000) :
    (stepCall s i now).result i = .gotToken t ∧
    (stepCall s i now).postCount = s.postCount ∧
    (stepCall s i now).inFlight = s.inFlight ∧
    (stepCall s i now).cachedToken = s.cachedToken ∧
    (stepCall s i now).tokenExpiry = s.tokenExpiry ∧
    (stepCall s i now).waiting = s.waiting := by
  have : stepCall s i now =
      { s with result := fun j => if j = i then .gotToken t else s.result j } := by
    unfold stepCall
    rw [hc]
    simp [hv]
  simp [this]

/-- Witness for C7 at a concrete state: cached token "tok" expiring at
100000, call at time 0. -/

theorem getAccessToken_cached_no_request_witness :
    let s : TokenCacheState :=
      { initialTokenCacheState with cachedToken := some "tok", tokenExpiry := 100000 }
    (stepCall s 0 0).result 0 = .gotToken "tok" ∧
    (stepCall s 0 0).postCount = s.postCount ∧
    (stepCall s 0 0).inFlight = s.inFlight ∧
    (stepCall s 0 0).cachedToken = s.cachedToken ∧
    (stepCall s 0 0).tokenExpiry = s.tokenExpiry ∧
    (stepCall s 0 0).waiting = s.waiting :=
  getAccessToken_cached_no_request _ 0 0 "tok" rfl (by decide)

/-- C1: two calls that both begin while no valid cached token exists
and nothing is in flight, with no refresh completing between them,
issue exactly one POST, and when the single in-flight request then
succeeds with token `t`, both callers resolve to that same `t`. -/

theorem getAccessToken_single_flight
    (s : TokenCacheState) (i j : Nat) (now1 now2 now3 : Int)
    (t : String) (e : Int)
    (hnf : s.inFlight = false)
    (hv1 : tokenValid s now1 = false)
    (hv2 : tokenValid s now2 = false)
    (_hij : i ≠ j) :
    let s1 := stepCall s i now1
    let s2 := stepCall s1 j now2
    let s3 := stepComplete s2 (.success t e) now3
    s2.postCount = s.postCount + 1 ∧
    s3.postCount = s.postCount + 1 ∧
    s3.result i = .gotToken t ∧
    s3.result j = .gotToken t := by
  intro s1 s2 s3
  have hs1 :
      s1 = { s with inFlight := true, postCount := s.postCount + 1, waiting := [i] } :=
    stepCall_refresh s i now1 hnf hv1
  have hs2 :
      s2 = { s with inFlight := true, postCount := s.postCount + 1, waiting := [j, i] } := by
    show stepCall s1 j now2 = _
    rw [hs1]
    exact stepCall_join _ j now2 rfl (by simpa [tokenValid] using hv2)
  refine ⟨by rw [hs2], ?_, ?_, ?_⟩
  · show (stepComplete s2 (.success t e) now3).postCount = s.postCount + 1
    rw [hs2]; simp [stepComplete]
  · show (stepComplete s2 (.success t e) now3).result i = .gotToken t
    rw [hs2]; simp [stepComplete]
  · show (stepComplete s2 (.success t e) now3).result j = .gotToken t
    rw [hs2]; simp [stepComplete]

/-- Witness for C1: empty cache, callers 0 and 1 at times 0 and 1, the
fetch succeeding with token "tok" and a 300-second lifetime. -/

theorem getAccessToken_single_flight_witness :
    let s := initialTokenCacheState
    let s1 := stepCall s 0 0
    let s2 := stepCall s1 1 1
    let s3 := stepComplete s2 (.success "tok" 300) 2
    s2.postCount = s.postCount + 1 ∧
    s3.postCount = s.postCount + 1 ∧
    s3.result 0 = .gotToken "tok" ∧
    s3.result 1 = .gotToken "tok" :=
  getAccessToken_single_flight initialTokenCacheState 0 1 0 1 2 "tok" 300
    rfl (by decide) (by decide) (by decide)

/-- C9: when the in-flight identity request settles, the in-flight
marker is cleared whatever the outcome; on failure every caller that was
awaiting it (the leader included) receives the error; and a subsequent
call finding the cache still invalid starts a fresh refresh (issues a
new POST) rather than awaiting a dead request. -/

theorem getAccessToken_clears_inflight_marker
    (s : TokenCacheState) (o : FetchOutcome) (now now2 : Int) (k : Nat)
    (hf : s.inFlight = true)
    (hv : tokenValid (stepComplete s .failure now) now2 = false) :
    (stepComplete s o now).inFlight = false ∧
    (∀ j, j ∈ s.waiting →
      (stepComplete s .failure now).result j = .gotError) ∧
    (stepCall (stepComplete s .failure now) k now2).postCount =
      s.postCount + 1 ∧
    (stepCall (stepComplete s .failure now) k now2).inFlight = true := by
  have hfail : stepComplete s .failure now =
      { s with inFlight := false, waiting := [], result := fun j => if j ∈ s.waiting then .gotError else s.result j } := by
    simp [stepComplete, hf]
  have hretry := stepCall_refresh (stepComplete s .failure now) k now2
    (by rw [hfail]) hv
  refine ⟨?_, ?_, ?_, ?_⟩
  · cases o <;> simp [stepComplete, hf]
  · intro j hj
    simp [hfail, hj]
  · rw [hretry, hfail]
  · rw [hretry]

/-- Witness for C9: caller 0 is awaiting the in-flight request, the
fetch fails, and caller 1 then retries at time 5. -/

theorem getAccessToken_clears_inflight_marker_witness :
    let s : TokenCacheState :=
      { initialTokenCacheState with inFlight := true, postCount := 1, waiting := [0] }
    (stepComplete s .failure 3).inFlight = false ∧
    (∀ j, j ∈ s.waiting →
      (stepComplete s .failure 3).result j = .gotError) ∧
    (stepCall (stepComplete s .failure 3) 1 5).postCount = s.postCount + 1 ∧
    (stepCall (stepComplete s .failure 3) 1 5).inFlight = true :=
  getAccessToken_clears_inflight_marker _ .failure 3 5 1 rfl (by decide)

/-!
## Compressed timeline (Timeline component, compressed variant)

`compressTimeline(events, thresholdDays)` filters to VISIBLE events,
sorts them by real timestamp, places the i-th event at
`baseDate + i * STANDARD_GAP_MS`, and pushes one gap marker per
consecutive pair whose real gap exceeds `thresholdDays` days, at the
midpoint of the corresponding synthetic interval, carrying
`Math.round(gapDays)`.
-/

/-- `1000 * 60 * 60 * 24`. -/

theorem compressLoop_spec (th : Int) :
    ∀ (l : List AssetEvent) (prev : Int) (pos : Nat),
    (compressLoop th prev pos l).1.map (fun c => c.event) = l ∧
    (compressLoop th prev pos l).1.map (fun c => c.displayTime) =
      (List.range' (pos + 1) l.length).map
        (fun i => compressBaseTime + (i : Int) * STANDARD_GAP_MS) ∧
    (compressLoop th prev pos l).2 =
      (List.enumFrom (pos + 1)
        ((prev :: l.map (fun e => e.creationDate.time)).zip
          (l.map (fun e => e.creationDate.time)))).filterMap
        (fun p => if p.2.2 - p.2.1 > th * DAY_MS
          then some (specGapMarker p.1 (p.2.2 - p.2.1)) else none) := by
  intro l
  induction l with
  | nil => intro prev pos; simp [compressLoop]
  | cons curr rest ih =>
    intro prev pos
    obtain ⟨ih1, ih2, ih3⟩ := ih curr.creationDate.time (pos + 1)
    by_cases hgap : curr.creationDate.time - prev > th * DAY_MS
    · refine ⟨?_, ?_, ?_⟩
      · simp [compressLoop, hgap, ih1]
      · simp [compressLoop, hgap, ih2, List.range'_succ]
      · simp [compressLoop, hgap, ih3, specGapMarker, List.enumFrom, List.zip]
    · refine ⟨?_, ?_, ?_⟩
      · simp [compressLoop, hgap, ih1]
      · simp [compressLoop, hgap, ih2, List.range'_succ]
      · simp [compressLoop, hgap, ih3, List.enumFrom, List.zip]

/-- C2: in compressed mode the i-th visible event (sorted by real
timestamp, 0-based) is placed at `base + i * 14 days` — synthetic
positions strictly increasing with fixed 14-day spacing — and the
markers are exactly one per consecutive pair whose real gap exceeds the
threshold, at the midpoint of the corresponding synthetic interval,
carrying the real gap rounded to whole days; in particular four events
at real deltas [1 day, 120 days, 5 days] yield exactly one marker,
after the 120-day delta. -/

theorem compressTimeline_positions_and_gaps :
    (∀ (events : List AssetEvent) (th : Int),
      (compressTimeline events th).1.map (fun c => c.event) = sortedVisible events ∧
      (compressTimeline events th).1.map (fun c => c.displayTime) =
        (List.range (sortedVisible events).length).map
          (fun i => compressBaseTime + (i : Int) * STANDARD_GAP_MS) ∧
      (compressTimeline events th).2 =
        (List.enumFrom 1
          (((sortedVisible events).map (fun e => e.creationDate.time)).zip
            (((sortedVisible events).map (fun e => e.creationDate.time)).tail))).filterMap
          (fun p => if p.2.2 - p.2.1 > th * DAY_MS
            then some (specGapMarker p.1 (p.2.2 - p.2.1)) else none)) ∧
    ((compressTimeline gapExampleEvents 90).2 = [specGapMarker 2 10368000000] ∧
     (compressTimeline gapExampleEvents 90).2.map (fun g => g.beforeIndex) = [2] ∧
     (compressTimeline gapExampleEvents 90).2.map (fun g => g.originalDays) = [120] ∧
     (compressTimeline gapExampleEvents 90).1.map (fun c => c.displayTime) =
       [compressBaseTime, compressBaseTime + STANDARD_GAP_MS,
        compressBaseTime + 2 * STANDARD_GAP_MS, compressBaseTime + 3 * STANDARD_GAP_MS]) := by
  constructor
  · intro events th
    cases hsv : sortedVisible events with
    | nil => simp [compressTimeline, hsv]
    | cons first rest =>
      obtain ⟨h1, h2, h3⟩ := compressLoop_spec th rest first.creationDate.time 0
      refine ⟨?_, ?_, ?_⟩
      · simp [compressTimeline, hsv, h1]
      · simp [compressTimeline, hsv, h2, List.range_eq_range', List.range'_succ]
      · simp [compressTimeline, hsv, h3]
  · refine ⟨by decide, by decide, by decide, by decide⟩

/-!
## Initial timeline window (Timeline component)

Both Timeline variants compute the widget's initial `start`/`end`
declaratively: selected years ⇒ Jan 1 of the earliest to Dec 31 of the
latest; otherwise the visible events' year range; otherwise the current
calendar year.  The compressed variant additionally requires
`!compressed` for the selected-years branch.  A dead local of the
compressed variant computes `endDate = max(today, lastEvent) + 180 days`
but never uses it; no window is ever padded past Dec 31.
-/

/-- `new Date(y, 0, 1)`. -/

theorem mem_sortInsert {α : Type} (le : α → α → Bool) (x y : α) (l : List α) :
    y ∈ sortInsert le x l ↔ y = x ∨ y ∈ l := by
  induction l with
  | nil => simp [sortInsert]
  | cons a as ih =>
    by_cases h : le x a = true
    · simp [sortInsert, h]
    · simp [sortInsert, h, ih]
      tauto

/-- `insertionSort` preserves membership. -/

theorem mem_insertionSort {α : Type} (le : α → α → Bool) (y : α) (l : List α) :
    y ∈ insertionSort le l ↔ y ∈ l := by
  induction l with
  | nil => simp [insertionSort]
  | cons a as ih => simp [insertionSort, mem_sortInsert, ih]

/-- Inserting into an ascending `Int` list keeps it ascending. -/

theorem sortInsert_pairwise (x : Int) (l : List Int)
    (h : l.Pairwise (· ≤ ·)) :
    (sortInsert intLe x l).Pairwise (· ≤ ·) := by
  induction l with
  | nil => simp [sortInsert]
  | cons a as ih =>
    rw [List.pairwise_cons] at h
    by_cases hle : intLe x a = true
    · have hxa : x ≤ a := by simpa [intLe] using hle
      rw [sortInsert, if_pos hle]
      refine List.Pairwise.cons ?_ (List.Pairwise.cons h.1 h.2)
      intro z hz
      rcases List.mem_cons.mp hz with rfl | hz'
      · exact hxa
      · exact le_trans hxa (h.1 z hz')
    · have hax : a ≤ x := by
        have : ¬ x ≤ a := by simpa [intLe] using hle
        omega
      rw [sortInsert, if_neg hle]
      refine List.Pairwise.cons ?_ (ih h.2)
      intro z hz
      rcases (mem_sortInsert intLe x z as).mp hz with rfl | hz'
      · exact hax
      · exact h.1 z hz'

/-- `insertionSort` on `Int` produces an ascending list. -/

theorem insertionSort_pairwise (l : List Int) :
    (insertionSort intLe l).Pairwise (· ≤ ·) := by
  induction l with
  | nil => simp [insertionSort]
  | cons a as ih => exact sortInsert_pairwise a _ ih

/-- `insertionSort` of a nonempty list is nonempty. -/

theorem insertionSort_ne_nil {α : Type} (le : α → α → Bool) (a : α) (l : List α) :
    insertionSort le (a :: l) ≠ [] := by
  intro h
  have : a ∈ insertionSort le (a :: l) := by
    rw [mem_insertionSort]; exact List.mem_cons_self a l
  rw [h] at this
  exact List.not_mem_nil a this

/-- `List.foldl min` never exceeds its initial accumulator. -/

theorem foldl_min_le_init (l : List Int) (a : Int) : l.foldl min a ≤ a := by
  induction l generalizing a with
  | nil => simp
  | cons b bs ih => exact le_trans (ih (min a b)) (min_le_left a b)

/-- `List.foldl min` never exceeds a list element. -/

theorem foldl_min_le_mem (l : List Int) (a x : Int) (hx : x ∈ l) :
    l.foldl min a ≤ x := by
  induction l generalizing a with
  | nil => cases hx
  | cons b bs ih =>
    rw [List.foldl_cons]
    rcases List.mem_cons.mp hx with rfl | hx'
    · exact le_trans (foldl_min_le_init bs (min a x)) (min_le_right a x)
    · exact ih (min a b) hx'

/-- `List.foldl min` is the accumulator or a list element. -/

theorem foldl_min_mem (l : List Int) (a : Int) :
    l.foldl min a = a ∨ l.foldl min a ∈ l := by
  induction l generalizing a with
  | nil => exact Or.inl rfl
  | cons b bs ih =>
    rw [List.foldl_cons]
    rcases ih (min a b) with h | h
    · rcases le_total a b with hab | hba
      · rw [min_eq_left hab] at h ⊢
        exact Or.inl h
      · rw [min_eq_right hba] at h ⊢
        rw [h]
        exact Or.inr (List.mem_cons_self b bs)
    · exact Or.inr (List.mem_cons.mpr (Or.inr h))

/-- `List.foldl max` is at least its initial accumulator. -/

theorem init_le_foldl_max (l : List Int) (a : Int) : a ≤ l.foldl max a := by
  induction l generalizing a with
  | nil => simp
  | cons b bs ih => exact le_trans (le_max_left a b) (ih (max a b))

/-- `List.foldl max` is at least every list element. -/

theorem mem_le_foldl_max (l : List Int) (a x : Int) (hx : x ∈ l) :
    x ≤ l.foldl max a := by
  induction l generalizing a with
  | nil => cases hx
  | cons b bs ih =>
    rw [List.foldl_cons]
    rcases List.mem_cons.mp hx with rfl | hx'
    · exact le_trans (le_max_right a x) (init_le_foldl_max bs (max a x))
    · exact ih (max a b) hx'

/-- `List.foldl max` is the accumulator or a list element. -/

theorem foldl_max_mem (l : List Int) (a : Int) :
    l.foldl max a = a ∨ l.foldl max a ∈ l := by
  induction l generalizing a with
  | nil => exact Or.inl rfl
  | cons b bs ih =>
    rw [List.foldl_cons]
    rcases ih (max a b) with h | h
    · rcases le_total a b with hab | hba
      · rw [max_eq_right hab] at h ⊢
        rw [h]
        exact Or.inr (List.mem_cons_self b bs)
      · rw [max_eq_left hba] at h ⊢
        exact Or.inl h
    · exact Or.inr (List.mem_cons.mpr (Or.inr h))

/-- `minList` is a lower bound. -/

theorem minList_le (l : List Int) (x : Int) (hx : x ∈ l) : minList l ≤ x := by
  match l with
  | [] => cases hx
  | a :: as =>
    rw [minList]
    rcases List.mem_cons.mp hx with rfl | hx'
    · exact foldl_min_le_init as x
    · exact foldl_min_le_mem as a x hx'

/-- `minList` of a nonempty list is one of its elements. -/

theorem minList_mem (a : Int) (l : List Int) : minList (a :: l) ∈ a :: l := by
  rw [minList]
  rcases foldl_min_mem l a with h | h
  · rw [h]; exact List.mem_cons_self a l
  · exact List.mem_cons.mpr (Or.inr h)

/-- `maxList` is an upper bound. -/

theorem le_maxList (l : List Int) (x : Int) (hx : x ∈ l) : x ≤ maxList l := by
  match l with
  | [] => cases hx
  | a :: as =>
    rw [maxList]
    rcases List.mem_cons.mp hx with rfl | hx'
    · exact init_le_foldl_max as x
    · exact mem_le_foldl_max as a x hx'

/-- `maxList` of a nonempty list is one of its elements. -/

theorem maxList_mem (a : Int) (l : List Int) : maxList (a :: l) ∈ a :: l := by
  rw [maxList]
  rcases foldl_max_mem l a with h | h
  · rw [h]; exact List.mem_cons_self a l
  · exact List.mem_cons.mpr (Or.inr h)

/-- The head of an ascending list is a lower bound. -/

theorem pairwise_headD_le (l : List Int) (h : l.Pairwise (· ≤ ·))
    (x : Int) (hx : x ∈ l) : l.headD 0 ≤ x := by
  match l with
  | [] => cases hx
  | a :: as =>
    rw [List.pairwise_cons] at h
    rcases List.mem_cons.mp hx with rfl | hx'
    · simp
    · simpa using h.1 x hx'

/-- Every element of an ascending list is at most its last entry. -/

theorem pairwise_le_getLastD (l : List Int) (h : l.Pairwise (· ≤ ·))
    (x : Int) (hx : x ∈ l) : x ≤ l.getLastD 0 := by
  induction l generalizing x with
  | nil => cases hx
  | cons a as ih =>
    rw [List.pairwise_cons] at h
    match as with
    | [] =>
      simp at hx
      simp [hx, List.getLastD]
    | b :: bs =>
      have hlast : (a :: b :: bs).getLastD 0 = (b :: bs).getLastD 0 := by
        simp [List.getLastD]
      rw [hlast]
      rcases List.mem_cons.mp hx with rfl | hx'
      · exact le_trans (h.1 b (List.mem_cons_self _ _)) (ih h.2 b (List.mem_cons_self _ _))
      · exact ih h.2 x hx'

/-- The last entry of a nonempty list is an element. -/

theorem getLastD_mem (a : Int) (l : List Int) : (a :: l).getLastD 0 ∈ a :: l := by
  induction l generalizing a with
  | nil => simp [List.getLastD]
  | cons b bs ih =>
    have hlast : (a :: b :: bs).getLastD 0 = (b :: bs).getLastD 0 := by
      simp [List.getLastD]
    rw [hlast]
    exact List.mem_cons.mpr (Or.inr (ih b))

/-- The head of the ascending sort of a nonempty `Int` list is its
minimum. -/

theorem headD_insertionSort (a : Int) (l : List Int) :
    (insertionSort intLe (a :: l)).headD 0 = minList (a :: l) := by
  have hs := insertionSort_pairwise (a :: l)
  have hne := insertionSort_ne_nil intLe a l
  obtain ⟨b, bs, hb⟩ := List.exists_cons_of_ne_nil hne
  apply le_antisymm
  · have hmem : minList (a :: l) ∈ insertionSort intLe (a :: l) := by
      rw [mem_insertionSort]; exact minList_mem a l
    exact pairwise_headD_le _ hs _ hmem
  · have hmem : (insertionSort intLe (a :: l)).headD 0 ∈ insertionSort intLe (a :: l) := by
      rw [hb]; simp
    rw [mem_insertionSort] at hmem
    exact minList_le _ _ hmem

/-- The last entry of the ascending sort of a nonempty `Int` list is
its maximum. -/

theorem getLastD_insertionSort (a : Int) (l : List Int) :
    (insertionSort intLe (a :: l)).getLastD 0 = maxList (a :: l) := by
  have hs := insertionSort_pairwise (a :: l)
  have hne := insertionSort_ne_nil intLe a l
  obtain ⟨b, bs, hb⟩ := List.exists_cons_of_ne_nil hne
  apply le_antisymm
  · have hmem : (insertionSort intLe (a :: l)).getLastD 0 ∈ insertionSort intLe (a :: l) := by
      rw [hb]; exact getLastD_mem b bs
    rw [mem_insertionSort] at hmem
    exact le_maxList _ _ hmem
  · have hmem : maxList (a :: l) ∈ insertionSort intLe (a :: l) := by
      rw [mem_insertionSort]; exact maxList_mem a l
    exact pairwise_le_getLastD _ hs _ hmem

/-!
## Event classifier and timeline rows (current Timeline component)

`EVENT_TYPE_CONFIG` keys drive the unknown-type guard; RECOVERED rows
are dynamic per cover material; the remaining rows come from
`TIMELINE_GROUPS`.  Rendered HTML/CSS strings (`content`, `style`,
`className`) are presentation only and are not modelled; a group is
represented by its `id` and its position (the `order` field is the
emission index).
-/

/-- The presentation record attached to each event type in
`EVENT_TYPE_CONFIG`. -/

theorem initialWindow_branches :
    (∀ (y : Int) (ys : List Int) (vis : List AssetEvent) (now : JSDate),
      initialWindow (y :: ys) vis now =
        (jan1 (minList (y :: ys)), dec31 (maxList (y :: ys)))) ∧
    (∀ (e : AssetEvent) (es : List AssetEvent) (now : JSDate),
      initialWindow [] (e :: es) now =
        (jan1 (minList ((e :: es).map (fun v => v.creationDate.year))),
         dec31 (maxList ((e :: es).map (fun v => v.creationDate.year))))) ∧
    (∀ now : JSDate, initialWindow [] [] now = (jan1 now.year, dec31 now.year)) := by
  refine ⟨?_, ?_, ?_⟩
  · intro y ys vis now
    have h1 := headD_insertionSort y ys
    have h2 := getLastD_insertionSort y ys
    rw [List.headD_eq_head?] at h1
    rw [List.getLastD_eq_getLast?] at h2
    simp [initialWindow, h1, h2]
  · intro e es now
    simp [initialWindow]
  · intro now
    simp [initialWindow]

/-- C3 counterexample: with the current year (2025) selected, the
computed window is identical for two different values of "today" — one
of them Dec 31, 2025 itself — and its end is exactly Dec 31 of the
selected year.  Under the claim the end would be "today plus a fixed
padding", which differs between the two todays and extends past Dec 31;
the code never pads the window. -/

theorem initialWindow_no_today_padding :
    initialWindow [2025] [] { time := 1760140800000, year := 2025 } =
      initialWindow [2025] [] { time := 1767139200000, year := 2025 } ∧
    (initialWindow [2025] [] { time := 1767139200000, year := 2025 }).2 =
      dec31 2025 := by
  constructor <;> rfl

/-- C10: the compressed Timeline variant guards the selected-years
branch with `!compressed`: with compression on, the initial window is
computed as if no years were selected (the selection is ignored), while
with compression off a nonempty selection yields the
Jan 1 (earliest) – Dec 31 (latest) window. -/

theorem initialWindowCompressed_ignores_selection :
    (∀ (sel : List Int) (vis : List AssetEvent) (now : JSDate),
      initialWindowCompressed true sel vis now =
        initialWindowCompressed true [] vis now) ∧
    (∀ (y : Int) (ys : List Int) (vis : List AssetEvent) (now : JSDate),
      initialWindowCompressed false (y :: ys) vis now =
        (jan1 (minList (y :: ys)), dec31 (maxList (y :: ys)))) := by
  constructor
  · intro sel vis now
    simp [initialWindowCompressed]
  · intro y ys vis now
    have h1 := headD_insertionSort y ys
    have h2 := getLastD_insertionSort y ys
    rw [List.headD_eq_head?] at h1
    rw [List.getLastD_eq_getLast?] at h2
    simp [initialWindowCompressed, h1, h2]

/-- `charListLe` is total. -/

theorem charListLe_total : ∀ (x y : List Char),
    charListLe x y = true ∨ charListLe y x = true
  | [], _ => Or.inl rfl
  | _ :: _, [] => Or.inr rfl
  | a :: as, b :: bs => by
    by_cases h1 : a.toNat < b.toNat
    · left; simp [charListLe, h1]
    · by_cases h2 : b.toNat < a.toNat
      · right; simp [charListLe, h2]
      · rcases charListLe_total as bs with h | h
        · left; simp [charListLe, h1, h2, h]
        · right; simp [charListLe, h1, h2, h]

/-- `charListLe` is transitive. -/

theorem charListLe_trans : ∀ (x y z : List Char),
    charListLe x y = true → charListLe y z = true → charListLe x z = true
  | [], _, _ => fun _ _ => rfl
  | _ :: _, [], _ => fun h _ => by simp [charListLe] at h
  | _ :: _, _ :: _, [] => fun _ h => by simp [charListLe] at h
  | a :: as, b :: bs, c :: cs => fun h1 h2 => by
    simp only [charListLe] at h1 h2 ⊢
    rcases Nat.lt_trichotomy a.toNat b.toNat with hab | hab | hab
    · rcases Nat.lt_trichotomy b.toNat c.toNat with hbc | hbc | hbc
      · have hac : a.toNat < c.toNat := by omega
        simp [hac]
      · have hac : a.toNat < c.toNat := by omega
        simp [hac]
      · have hbc' : ¬ b.toNat < c.toNat := by omega
        simp [hbc', hbc] at h2
    · have hab' : ¬ a.toNat < b.toNat := by omega
      have hba : ¬ b.toNat < a.toNat := by omega
      simp [hab', hba] at h1
      rcases Nat.lt_trichotomy b.toNat c.toNat with hbc | hbc | hbc
      · have hac : a.toNat < c.toNat := by omega
        simp [hac]
      · have hbc' : ¬ b.toNat < c.toNat := by omega
        have hcb : ¬ c.toNat < b.toNat := by omega
        simp [hbc', hcb] at h2
        have hac : ¬ a.toNat < c.toNat := by omega
        have hca : ¬ c.toNat < a.toNat := by omega
        simp [hac, hca]
        exact charListLe_trans as bs cs h1 h2
      · have hbc' : ¬ b.toNat < c.toNat := by omega
        simp [hbc', hbc] at h2
    · have hab' : ¬ a.toNat < b.toNat := by omega
      simp [hab', hab] at h1

/-- `strLe` is total. -/

theorem strLe_total (a b : String) : strLe a b = true ∨ strLe b a = true :=
  charListLe_total a.data b.data

/-- `strLe` is transitive. -/

theorem strLe_trans (a b c : String) :
    strLe a b = true → strLe b c = true → strLe a c = true :=
  charListLe_trans a.data b.data c.data

/-- Inserting below a transitive, total `le` preserves ascending
order. -/

theorem sortInsert_pairwise_of {α : Type} (le : α → α → Bool)
    (htrans : ∀ a b c, le a b = true → le b c = true → le a c = true)
    (htot : ∀ a b, le a b = true ∨ le b a = true)
    (x : α) (l : List α) (h : l.Pairwise (fun a b => le a b = true)) :
    (sortInsert le x l).Pairwise (fun a b => le a b = true) := by
  induction l with
  | nil => simp [sortInsert]
  | cons a as ih =>
    rw [List.pairwise_cons] at h
    by_cases hle : le x a = true
    · rw [sortInsert, if_pos hle]
      refine List.Pairwise.cons ?_ (List.Pairwise.cons h.1 h.2)
      intro z hz
      rcases List.mem_cons.mp hz with rfl | hz'
      · exact hle
      · exact htrans x a z hle (h.1 z hz')
    · have hax : le a x = true := (htot x a).resolve_left hle
      rw [sortInsert, if_neg hle]
      refine List.Pairwise.cons ?_ (ih h.2)
      intro z hz
      rcases (mem_sortInsert le x z as).mp hz with rfl | hz'
      · exact hax
      · exact h.1 z hz'

/-- `insertionSort` below a transitive, total `le` produces an
ascending list. -/

theorem insertionSort_pairwise_of {α : Type} (le : α → α → Bool)
    (htrans : ∀ a b c, le a b = true → le b c = true → le a c = true)
    (htot : ∀ a b, le a b = true ∨ le b a = true)
    (l : List α) :
    (insertionSort le l).Pairwise (fun a b => le a b = true) := by
  induction l with
  | nil => simp [insertionSort]
  | cons a as ih => exact sortInsert_pairwise_of le htrans htot a _ ih

/-- `sortInsert` is a permutation of consing. -/

theorem sortInsert_perm {α : Type} (le : α → α → Bool) (x : α) (l : List α) :
    List.Perm (sortInsert le x l) (x :: l) := by
  induction l with
  | nil => exact List.Perm.refl _
  | cons a as ih =>
    by_cases h : le x a = true
    · rw [sortInsert, if_pos h]
    · rw [sortInsert, if_neg h]
      exact List.Perm.trans (List.Perm.cons a ih) (List.Perm.swap x a as)

/-- `insertionSort` permutes its input. -/

theorem insertionSort_perm {α : Type} (le : α → α → Bool) (l : List α) :
    List.Perm (insertionSort le l) l := by
  induction l with
  | nil => exact List.Perm.refl _
  | cons a as ih =>
    exact List.Perm.trans (sortInsert_perm le a _) (List.Perm.cons a ih)

/-- `distinctFirst` preserves membership. -/

theorem mem_distinctFirst {α : Type} [DecidableEq α] (x : α) (l : List α) :
    x ∈ distinctFirst l ↔ x ∈ l := by
  induction l with
  | nil => simp [distinctFirst]
  | cons a as ih =>
    by_cases hxa : x = a
    · subst hxa
      simp [distinctFirst]
    · simp [distinctFirst, List.mem_filter, hxa, ih]

/-- `distinctFirst` has no duplicates. -/

theorem distinctFirst_nodup {α : Type} [DecidableEq α] (l : List α) :
    (distinctFirst l).Nodup := by
  induction l with
  | nil => simp [distinctFirst]
  | cons a as ih =>
    rw [distinctFirst]
    refine List.Nodup.cons ?_ (List.Nodup.filter _ ih)
    intro hmem
    have := (List.mem_filter.mp hmem).2
    simp at this

/-- Membership in `getRecoveredMaterials`: exactly the
`coverMaterial || 'Unknown'` values of visible RECOVERED events. -/

theorem mem_getRecoveredMaterials (events : List AssetEvent) (m : String) :
    m ∈ getRecoveredMaterials events ↔
      ∃ e, e ∈ events ∧ e.type = "RECOVERED" ∧ e.state = "VISIBLE" ∧
        orUnknown e.coverMaterial = m := by
  rw [getRecoveredMaterials, mem_insertionSort, mem_distinctFirst]
  simp only [List.mem_map, List.mem_filter, Bool.and_eq_true, beq_iff_eq]
  constructor
  · rintro ⟨e, ⟨he, ht, hs⟩, hm⟩
    exact ⟨e, he, ht, hs, hm⟩
  · rintro ⟨e, he, ht, hs, hm⟩
    exact ⟨e, ⟨he, ht, hs⟩, hm⟩

/-- `getRecoveredMaterials` is ascending in the JavaScript string
order. -/

theorem getRecoveredMaterials_pairwise (events : List AssetEvent) :
    (getRecoveredMaterials events).Pairwise (fun a b => strLe a b = true) :=
  insertionSort_pairwise_of strLe strLe_trans strLe_total _

/-- `getRecoveredMaterials` has no duplicate materials. -/

theorem getRecoveredMaterials_nodup (events : List AssetEvent) :
    (getRecoveredMaterials events).Nodup :=
  (insertionSort_perm strLe _).nodup_iff.mpr (distinctFirst_nodup _)

/-- `material || 'Unknown'` is idempotent under re-substitution. -/

theorem orUnknown_orUnknown (m : Option String) :
    orUnknown (some (orUnknown m)) = orUnknown m := by
  match m with
  | none => rfl
  | some s =>
    by_cases h : s == ""
    · simp [orUnknown, h]
    · simp [orUnknown, h]

/-- Every emitted timeline row has at least one visible event assigned
to it by `getGroupForEvent` — no empty rows. -/

theorem timelineRows_no_empty (events : List AssetEvent) (g : String)
    (hg : g ∈ timelineRows events) :
    ∃ e, e ∈ events ∧ e.state = "VISIBLE" ∧ getGroupForEvent e = g := by
  rw [timelineRows, createGroups] at hg
  rcases List.mem_append.mp hg with hdyn | hstat
  · by_cases hrec :
      ((events.filter (fun e => e.state == "VISIBLE")).map (fun e => e.type)).contains
        "RECOVERED" = true
    · rw [if_pos hrec] at hdyn
      obtain ⟨m, hm, rfl⟩ := List.mem_map.mp hdyn
      obtain ⟨e, he, ht, _, hmm⟩ := (mem_getRecoveredMaterials _ m).mp hm
      have he' := List.mem_filter.mp he
      refine ⟨e, he'.1, by simpa using he'.2, ?_⟩
      rw [getGroupForEvent, if_pos (by simp [ht])]
      subst hmm
      simp [getRecoveredGroupId, orUnknown_orUnknown]
    · rw [if_neg hrec] at hdyn
      cases hdyn
  · obtain ⟨grp, hgrp, rfl⟩ := List.mem_map.mp hstat
    have hgrp' := List.mem_filter.mp hgrp
    obtain ⟨t, htg, hts⟩ := List.any_eq_true.mp hgrp'.2
    have htm : t ∈ (events.filter (fun e => e.state == "VISIBLE")).map (fun e => e.type) := by
      simpa using hts
    obtain ⟨e, he, hte⟩ := List.mem_map.mp htm
    have he' := List.mem_filter.mp he
    refine ⟨e, he'.1, by simpa using he'.2, ?_⟩
    have hG := hgrp'.1
    simp only [TIMELINE_GROUPS, List.mem_cons, List.not_mem_nil, or_false] at hG
    rcases hG with h | h | h | h | h <;> subst h <;> simp at htg
    · subst htg; simp only [getGroupForEvent, hte]; rfl
    · subst htg; simp only [getGroupForEvent, hte]; rfl
    · subst htg; simp only [getGroupForEvent, hte]; rfl
    · rcases htg with htg | htg <;> (subst htg; simp only [getGroupForEvent, hte]; rfl)
    · subst htg; simp only [getGroupForEvent, hte]; rfl

/-- Three visible RECOVERED events with materials Rubber, PU, Rubber
and no other event types. -/

theorem timelineRows_grouping :
    (∀ (events : List AssetEvent) (m : String),
      m ∈ getRecoveredMaterials events ↔
        ∃ e, e ∈ events ∧ e.type = "RECOVERED" ∧ e.state = "VISIBLE" ∧
          orUnknown e.coverMaterial = m) ∧
    (∀ events : List AssetEvent,
      (getRecoveredMaterials events).Pairwise (fun a b => strLe a b = true) ∧
      (getRecoveredMaterials events).Nodup) ∧
    (∀ (events : List AssetEvent) (g : String), g ∈ timelineRows events →
      ∃ e, e ∈ events ∧ e.state = "VISIBLE" ∧ getGroupForEvent e = g) ∧
    timelineRows recoveredExampleEvents = ["RECOVERED:PU", "RECOVERED:Rubber"] :=
  ⟨mem_getRecoveredMaterials,
   fun events => ⟨getRecoveredMaterials_pairwise events, getRecoveredMaterials_nodup events⟩,
   timelineRows_no_empty,
   by decide⟩

/-- Witness for C6 at the concrete example: the RECOVERED:PU row is
emitted and indeed has a visible event. -/

theorem timelineRows_grouping_witness :
    ∃ e, e ∈ recoveredExampleEvents ∧ e.state = "VISIBLE" ∧
      getGroupForEvent e = "RECOVERED:PU" :=
  timelineRows_grouping.2.2.1 recoveredExampleEvents "RECOVERED:PU" (by decide)

/-- Filtering by visibility and filtering by config membership
commute. -/

theorem filter_state_filter_known (es : List AssetEvent) :
    (es.filter (fun e => hasEventTypeConfig e.type)).filter (fun e => e.state == "VISIBLE") =
      (es.filter (fun e => e.state == "VISIBLE")).filter (fun e => hasEventTypeConfig e.type) := by
  induction es with
  | nil => rfl
  | cons e rest ih =>
    by_cases hk : hasEventTypeConfig e.type = true <;>
      by_cases hs : (e.state == "VISIBLE") = true <;>
        simp [List.filter_cons, hk, hs, ih]

/-- A filter that implies config membership absorbs the config
filter. -/

theorem filter_known_absorb (es : List AssetEvent) (q : AssetEvent → Bool)
    (hq : ∀ e, q e = true → hasEventTypeConfig e.type = true) :
    (es.filter (fun e => hasEventTypeConfig e.type)).filter q = es.filter q := by
  induction es with
  | nil => rfl
  | cons e rest ih =>
    by_cases hk : hasEventTypeConfig e.type = true
    · simp [List.filter_cons, hk, ih]
    · have hqe : q e = false := by
        cases hqq : q e with
        | false => rfl
        | true => exact absurd (hq e hqq) hk
      simp [List.filter_cons, hk, hqe, ih]

/-- For a type that is a config key, dropping non-config events does
not change whether the type occurs among the mapped types. -/

theorem contains_type_filter_known (es : List AssetEvent) (t : String)
    (ht : hasEventTypeConfig t = true) :
    ((es.filter (fun e => hasEventTypeConfig e.type)).map (fun e => e.type)).contains t =
      (es.map (fun e => e.type)).contains t := by
  rw [Bool.eq_iff_iff]
  simp only [List.contains, List.elem_iff, List.mem_map, List.mem_filter]
  constructor
  · rintro ⟨e, ⟨he, _⟩, rfl⟩
    exact ⟨e, he, rfl⟩
  · rintro ⟨e, he, rfl⟩
    exact ⟨e, ⟨he, ht⟩, rfl⟩

/-- Dropping events whose type has no config entry leaves the material
rows unchanged (the RECOVERED filter already implies a config key). -/

theorem getRecoveredMaterials_filter_known (es : List AssetEvent) :
    getRecoveredMaterials (es.filter (fun e => hasEventTypeConfig e.type)) =
      getRecoveredMaterials es := by
  rw [getRecoveredMaterials, getRecoveredMaterials,
    filter_known_absorb es _ (fun e hq => ?_)]
  have h1 : (e.type == "RECOVERED") = true := ((Bool.and_eq_true _ _).mp hq).1
  have h2 : e.type = "RECOVERED" := by simpa using h1
  rw [h2]
  rfl

/-- Dropping events whose type has no config entry leaves the whole
row set unchanged. -/

theorem timelineRows_filter_known (es : List AssetEvent) :
    timelineRows (es.filter (fun e => hasEventTypeConfig e.type)) = timelineRows es := by
  rw [timelineRows, timelineRows, filter_state_filter_known]
  rw [createGroups, createGroups]
  have hvis :
      ∀ t, hasEventTypeConfig t = true →
        (((es.filter (fun e => e.state == "VISIBLE")).filter
            (fun e => hasEventTypeConfig e.type)).map (fun e => e.type)).contains t =
          ((es.filter (fun e => e.state == "VISIBLE")).map (fun e => e.type)).contains t :=
    fun t ht => contains_type_filter_known _ t ht
  congr 1
  · rw [hvis "RECOVERED" (by rfl),
      getRecoveredMaterials_filter_known (es.filter (fun e => e.state == "VISIBLE"))]
  · congr 1
    apply List.filter_congr
    intro g hgG
    simp only [TIMELINE_GROUPS, List.mem_cons, List.not_mem_nil, or_false] at hgG
    rcases hgG with h | h | h | h | h <;> subst h <;>
      simp only [List.any_cons, List.any_nil, Bool.or_false] <;>
      rw [hvis _ (by rfl)]
    rw [hvis "UNLINKED" (by rfl)]

/-- C4 (amended): events whose type is not a key of
`EVENT_TYPE_CONFIG` are excluded from the rendered items and produce no
row (filtering them away changes neither the item list nor the row
set), every emitted item comes from a visible event whose config lookup
succeeds (so rendering never dereferences a missing config), but such
events DO count toward the displayed event counts, which tally all
VISIBLE events regardless of type. -/

theorem unknownType_excluded_from_rendering :
    (∀ es : List AssetEvent,
      eventsToTimelineItems (es.filter (fun e => hasEventTypeConfig e.type)) =
        eventsToTimelineItems es) ∧
    (∀ es : List AssetEvent,
      timelineRows (es.filter (fun e => hasEventTypeConfig e.type)) = timelineRows es) ∧
    (∀ (es : List AssetEvent) (it : TimelineItem), it ∈ eventsToTimelineItems es →
      ∃ e, e ∈ es ∧ e.state = "VISIBLE" ∧ hasEventTypeConfig e.type = true ∧
        it = { id := e.id, group := getGroupForEvent e, start := e.creationDate.time }) ∧
    (∀ es : List AssetEvent,
      displayedEventCount es = (es.filter (fun e => e.state == "VISIBLE")).length) := by
  refine ⟨?_, timelineRows_filter_known, ?_, fun es => rfl⟩
  · intro es
    rw [eventsToTimelineItems, eventsToTimelineItems,
      filter_known_absorb es _ (fun e hq => ((Bool.and_eq_true _ _).mp hq).2)]
  · intro es it hit
    rw [eventsToTimelineItems] at hit
    obtain ⟨e, he, rfl⟩ := List.mem_map.mp hit
    have he' := List.mem_filter.mp he
    have hb := (Bool.and_eq_true _ _).mp he'.2
    exact ⟨e, he'.1, by simpa using hb.1, hb.2, rfl⟩

/-- Witness for C4 at a concrete input: the first item rendered for the
example events comes from a visible event with a config entry. -/

theorem unknownType_excluded_from_rendering_witness :
    ∃ e, e ∈ recoveredExampleEvents ∧ e.state = "VISIBLE" ∧
      hasEventTypeConfig e.type = true ∧
      ({ id := "r1", group := "RECOVERED:Rubber", start := 1000 } : TimelineItem) =
        { id := e.id, group := getGroupForEvent e, start := e.creationDate.time } :=
  unknownType_excluded_from_rendering.2.2.1 recoveredExampleEvents
    { id := "r1", group := "RECOVERED:Rubber", start := 1000 } (by decide)

/-- C4 counterexample: a VISIBLE event of an unknown type produces no
item and no row, yet the displayed event count is 1, not 0 — it is
counted by `allVisibleEvents` (and passes `filteredEvents`), so it is
NOT excluded from every displayed event count. -/

theorem unknownType_counted_in_displayed_count :
    hasEventTypeConfig unknownTypeEvent.type = false ∧
    eventsToTimelineItems [unknownTypeEvent] = [] ∧
    timelineRows [unknownTypeEvent] = [] ∧
    displayedEventCount [unknownTypeEvent] = 1 ∧
    (filteredEvents [unknownTypeEvent] DEFAULT_EVENT_TYPES []).length = 1 := by
  decide

/-- C5: the visible-event projection keeps exactly the VISIBLE events
whose type is either not a main (filterable) type or is selected, and
whose creation year is selected whenever any year is selected (an empty
year set selects all years); non-main types always pass the type
filter. -/

theorem filteredEvents_characterization :
    ∀ (events : List AssetEvent) (selectedTypes : List String)
      (selectedYears : List Int) (e : AssetEvent),
      e ∈ filteredEvents events selectedTypes selectedYears ↔
        e ∈ events ∧ e.state = "VISIBLE" ∧
        (e.type ∉ MAIN_EVENT_TYPES ∨ e.type ∈ selectedTypes) ∧
        (selectedYears = [] ∨ e.creationDate.year ∈ selectedYears) := by
  intro events ts ys e
  rw [filteredEvents, List.mem_filter]
  by_cases h1 : e.state = "VISIBLE" <;>
    by_cases h2 : e.type ∈ MAIN_EVENT_TYPES <;>
      by_cases h3 : e.type ∈ ts <;>
        by_cases h4 : ys = [] <;>
          by_cases h5 : e.creationDate.year ∈ ys <;>
            simp [h1, h2, h3, h4, h5, List.contains, List.elem_iff, bne,
              List.length_pos]

/-- C8 evaluated at the failing schedule: invocation 1 (an asset with
visible OTHER events) is superseded while suspended at its documents
fetch — its `cancelled` flag is set and invocation 2 commits asset 2 —
yet when invocation 1's documents fetch resolves, the code commits the
stale asset and pictures over the newer state, because `loadData` never
rechecks `cancelled` after the inner `await`. -/

theorem loadData_stale_overwrite :
    (runLoad initialAppState (staleTrace.take 5)).page.asset = some 2 ∧
    (runLoad initialAppState (staleTrace.take 5)).page.pictures = some 2 ∧
    (runLoad initialAppState staleTrace).cancelled 1 = true ∧
    (runLoad initialAppState staleTrace).page.asset = some 1 ∧
    (runLoad initialAppState staleTrace).page.pictures = some 1 := by
  decide
